import Mathlib

/-!
Shallow embedding of the document-extraction service
(`src/app/extraction.py` and `src/app/main.py`).

The external extraction engine (`unstructured.partition.auto.partition`) is an
opaque collaborator: it is modelled as a function from the payload bytes and
the temp-file suffix to either a list of elements or a raised exception
message.  Filesystem effects (the transient temp file) and the upload-stream
state (read / closed) are made explicit in the pipeline's outcome so that the
cleanup and frame claims can be stated.
-/

namespace UnstructuredSvc

/-! ## Characters and strings: helpers mirroring the Python string/path ops -/

/-- ASCII lowercasing of a string, as `str.lower()` does on the suffixes the
service handles. -/
def strLower (s : String) : String :=
  String.mk (s.toList.map Char.toLower)

/-- Split a character list on a separator character (like `str.split(sep)`):
used to take the final path component, as `pathlib.Path(...).name` does. -/
def splitOnChar (c : Char) : List Char → List (List Char)
  | [] => [[]]
  | a :: rest =>
    let r := splitOnChar c rest
    if a = c then [] :: r
    else
      match r with
      | [] => [[a]]
      | h :: t => (a :: h) :: t

/-- Final path component of a filename (`pathlib.Path(filename).name`
restricted to the `/` separator): the last nonempty component. -/
def pathName (s : String) : String :=
  String.mk (((splitOnChar '/' s.toList).filter (fun l => l ≠ [])).getLastD [])

/-- Index of the last occurrence of `'.'` in a character list
(CPython's `name.rfind('.')`), if any. -/
def lastDotIdx (cs : List Char) : Option Nat :=
  match cs.reverse.findIdx? (fun c => c = '.') with
  | some j => some (cs.length - 1 - j)
  | none => none

/-- Suffix of a path name as `pathlib.Path` computes it: CPython returns `name[i:]` for
`i = name.rfind('.')` when `0 < i < len(name) - 1`, else the empty string. -/
def pathSuffix (name : String) : String :=
  let cs := name.toList
  match lastDotIdx cs with
  | some i => if 0 < i ∧ i < cs.length - 1 then String.mk (cs.drop i) else ""
  | none => ""

/-- Python string interpolation of an `Optional[str]`: `None` prints as
`"None"`. -/
def optStr : Option String → String
  | none => "None"
  | some s => s

/-- Holds when `sub` is an initial run of `l`. -/
def leadsList : List Char → List Char → Bool
  | [], _ => true
  | _ :: _, [] => false
  | a :: as, b :: bs => a == b && leadsList as bs

/-- Holds when `sub` appears contiguously inside `l`:
used to state that an error message carries a filename / suffix / cause. -/
def occursIn (sub : List Char) : List Char → Bool
  | [] => leadsList sub []
  | b :: bs => leadsList sub (b :: bs) || occursIn sub bs

/-! ## Data model -/

/-- A byte of an uploaded payload. -/
abbrev Byte := Nat

/-- An uploaded document: an optional client-supplied filename plus the byte
payload that `await upload.read()` yields. -/
structure Upload where
  filename : Option String
  payload : List Byte
deriving Repr, DecidableEq

/-- One content element emitted by the extraction engine; its `to_dict`
mapping representation is open-ended key/value data, treated as opaque. -/
structure Element where
  dict : List (String × String)
deriving Repr, DecidableEq

/-- Conversion `element.to_dict()`. -/
def Element.to_dict (e : Element) : List (String × String) :=
  e.dict

/-- The per-document result `{"filename": ..., "elements": ...}`. -/
structure ExtractionResult where
  filename : Option String
  elements : List (List (String × String))
deriving Repr, DecidableEq

/-- A Python exception escaping the pipeline: either a typed
`ExtractionError` or any other exception, each carrying `str(exc)`. -/
inductive Exc where
  | extractionError (msg : String)
  | other (msg : String)
deriving Repr, DecidableEq

/-- The process-scoped temporary directory: the set of existing transient
files, each with its unique name (an id) and its suffix. -/
structure Fs where
  files : List (Nat × String)
deriving Repr, DecidableEq

instance {ε α : Type} [DecidableEq ε] [DecidableEq α] : DecidableEq (Except ε α) := fun x y =>
  match x, y with
  | Except.error a, Except.error b =>
      decidable_of_iff (a = b) ⟨fun h => by rw [h], fun h => by injection h⟩
  | Except.error _, Except.ok _ => isFalse (fun h => Except.noConfusion h)
  | Except.ok _, Except.error _ => isFalse (fun h => Except.noConfusion h)
  | Except.ok a, Except.ok b =>
      decidable_of_iff (a = b) ⟨fun h => by rw [h], fun h => by injection h⟩

/-- Observable state of the upload source stream. -/
structure UploadState where
  readDone : Bool
  closed : Bool
deriving Repr, DecidableEq

/-- Environment of one pipeline invocation: the engine, whether
`await upload.read()` itself raises (a non-`ExtractionError` failure),
whether `temp_file.write(payload)` raises after `NamedTemporaryFile` has
already created the file on disk, whether `os.remove` succeeds, and the
unique name `NamedTemporaryFile` would assign. -/
structure Env where
  engine : List Byte → String → Except String (List Element)
  readError : Option String
  writeError : Option String
  removeOk : Bool
  fileId : Nat

/-- Everything observable about one `extract_from_upload` invocation:
its returned value or raised exception, the upload-stream state, the final
temp directory, which transient file (id, suffix) was created if any,
whether its removal was attempted, and whether the engine was invoked. -/
structure Outcome where
  result : Except Exc ExtractionResult
  upState : UploadState
  fs : Fs
  created : Option (Nat × String)
  removalAttempted : Bool
  engineInvoked : Bool
deriving Repr, DecidableEq

/-! ## `src/app/extraction.py` -/

/-- The allow-list `SUPPORTED_EXTENSIONS`. -/
def SUPPORTED_EXTENSIONS : List String :=
  [".pdf", ".doc", ".docx", ".ppt", ".pptx", ".xlsx", ".xls", ".csv",
   ".rtf", ".html", ".txt", ".md"]

/-- Python `_normalized_suffix`: empty for a falsy filename, else the lowercased
`Path(filename).suffix`. -/
def _normalized_suffix (filename : Option String) : String :=
  match filename with
  | none => ""
  | some s => if s = "" then "" else strLower (pathSuffix (pathName s))

/-- The `ExtractionError` message of `_validate_extension`. -/
def unsupportedMsg (suffix : String) : String :=
  "Unsupported file type '" ++ suffix ++
    "'. Update SUPPORTED_EXTENSIONS if this format should be accepted."

/-- Python `_validate_extension`: raise when a suffix is present and is not in the
allow-list. -/
def _validate_extension (filename : Option String) : Except Exc Unit :=
  if _normalized_suffix filename ≠ "" ∧ _normalized_suffix filename ∉ SUPPORTED_EXTENSIONS then
    Except.error (Exc.extractionError (unsupportedMsg (_normalized_suffix filename)))
  else
    Except.ok ()

/-- The `ExtractionError` message for an empty payload. -/
def emptyMsg (filename : Option String) : String :=
  "The uploaded file '" ++ optStr filename ++ "' is empty."

/-- The `ExtractionError` message wrapping an engine/persistence failure. -/
def engineFailMsg (filename : Option String) (cause : String) : String :=
  "Failed to extract '" ++ optStr filename ++ "': " ++ cause

/-- The temp-file suffix: `_normalized_suffix(upload.filename) or ".bin"`. -/
def suffixOrBin (filename : Option String) : String :=
  if _normalized_suffix filename = "" then ".bin" else _normalized_suffix filename

/-- The temp directory after the `try/finally`: the transient file
`(env.fileId, suffix)` is created in `fs`, and the `finally` block's
`os.remove` deletes it again when removal succeeds (a removal failure is
swallowed, leaving the orphaned file behind). -/
def afterCleanupFs (env : Env) (fs : Fs) (suffix : String) : Fs :=
  if env.removeOk then
    ⟨(fs.files ++ [(env.fileId, suffix)]).filter (fun p => p.1 ≠ env.fileId)⟩
  else
    ⟨fs.files ++ [(env.fileId, suffix)]⟩

/-- Python `extract_from_upload`, step by step:
extension validation; `payload = await upload.read()` / `await upload.close()`
(the read itself may raise, before the `try` block, so such a failure
propagates raw); empty-payload check; creation of the uniquely named
transient file with the payload's suffix (or `".bin"`) and the synchronous
write of the payload into it — if the write raises, the exception is wrapped
like any other `try`-block failure, but `temp_path` was never assigned, so
the `finally` block's `if temp_path` guard skips `os.remove` and the
already-created file is orphaned with no removal attempt; the engine call,
whose exception is wrapped into an `ExtractionError` carrying the filename
and the cause; and the `finally` block, which attempts `os.remove` and
swallows its failure. -/
def extract_from_upload (env : Env) (u : Upload) (fs : Fs) : Outcome :=
  match _validate_extension u.filename with
  | Except.error e =>
      ⟨Except.error e, ⟨false, false⟩, fs, none, false, false⟩
  | Except.ok _ =>
    match env.readError with
    | some m =>
        ⟨Except.error (Exc.other m), ⟨false, false⟩, fs, none, false, false⟩
    | none =>
      if u.payload = [] then
        ⟨Except.error (Exc.extractionError (emptyMsg u.filename)),
          ⟨true, true⟩, fs, none, false, false⟩
      else
        match env.writeError with
        | some m =>
            ⟨Except.error (Exc.extractionError (engineFailMsg u.filename m)),
              ⟨true, true⟩, ⟨fs.files ++ [(env.fileId, suffixOrBin u.filename)]⟩,
              some (env.fileId, suffixOrBin u.filename), false, false⟩
        | none =>
          match env.engine u.payload (suffixOrBin u.filename) with
          | Except.error m =>
              ⟨Except.error (Exc.extractionError (engineFailMsg u.filename m)),
                ⟨true, true⟩, afterCleanupFs env fs (suffixOrBin u.filename),
                some (env.fileId, suffixOrBin u.filename), true, true⟩
          | Except.ok elems =>
              ⟨Except.ok ⟨u.filename, elems.map Element.to_dict⟩,
                ⟨true, true⟩, afterCleanupFs env fs (suffixOrBin u.filename),
                some (env.fileId, suffixOrBin u.filename), true, true⟩

/-! ## `src/app/main.py` -/

/-- An HTTP response of the route handler: a 200 JSON body of documents, or
an `HTTPException` with a status code and a detail string. -/
inductive Response where
  | ok (documents : List ExtractionResult)
  | httpError (status : Nat) (detail : String)
deriving Repr, DecidableEq

/-- The `i`-th element of `l`, if any. -/
def nth? : List α → Nat → Option α
  | [], _ => none
  | a :: _, 0 => some a
  | _ :: t, n + 1 => nth? t n

/-- Overwrite slot `i` of a list of optional slots (out of range: no-op). -/
def setSlot : List (Option α) → Nat → α → List (Option α)
  | [], _, _ => []
  | _ :: t, 0, x => some x :: t
  | h :: t, n + 1, x => h :: setSlot t n x

/-- One completion event of `asyncio.gather`: when task `i` completes with a
value, the value is stored at the task's own position `i`. -/
def gatherStep (results : List (Except Exc α)) (acc : List (Option α)) (i : Nat) :
    List (Option α) :=
  match nth? results i with
  | some (Except.ok v) => setSlot acc i v
  | _ => acc

/-- Filling of `asyncio.gather`'s positional result slots by the tasks'
completion events, in completion order `order`. -/
def gatherFill (results : List (Except Exc α)) (order : List Nat) : List (Option α) :=
  order.foldl (gatherStep results) (List.replicate results.length none)

/-- The values collected by `asyncio.gather` on the all-success path. -/
def collectOk (results : List (Except Exc α)) (order : List Nat) : List α :=
  (gatherFill results order).filterMap id

/-- The first exception `asyncio.gather` observes, in completion order. -/
def firstErr (results : List (Except Exc α)) : List Nat → Option Exc
  | [] => none
  | i :: rest =>
    match nth? results i with
    | some (Except.error e) => some e
    | _ => firstErr results rest

/-- Model of `asyncio.gather(*tasks)` over tasks with outcomes `results`, completing
in order `order` (a permutation of the task indices): raises the first
exception observed, else returns the values in the tasks' own order. -/
def gatherPy (results : List (Except Exc α)) (order : List Nat) : Except Exc (List α) :=
  match firstErr results order with
  | some e => Except.error e
  | none => Except.ok (collectOk results order)

/-- The outcomes of the per-document pipeline invocations fanned out by the
route handler, one per uploaded file, each started against the shared temp
directory `fs` with its own invocation environment. -/
def batchOutcomes (envs : List Env) (files : List Upload) (fs : Fs) : List Outcome :=
  (files.zip envs).map (fun p => extract_from_upload p.2 p.1 fs)

/-- The `POST /v1/extract` handler `extract`: rejects an empty batch with
400; otherwise gathers the concurrent pipeline invocations (completing in
order `order`), mapping an `ExtractionError` to 400 with `str(exc)` as
detail, any other exception to 500 with a generic detail, and full success
to a 200 body of the documents. -/
def extract (envs : List Env) (order : List Nat) (files : List Upload) (fs : Fs) :
    Response :=
  if files = [] then
    Response.httpError 400 "No files provided for extraction."
  else
    match gatherPy ((batchOutcomes envs files fs).map Outcome.result) order with
    | Except.error (Exc.extractionError m) => Response.httpError 400 m
    | Except.error (Exc.other m) =>
        Response.httpError 500 ("Unexpected extraction failure: " ++ m)
    | Except.ok docs => Response.ok docs

/-! ## List lemmas for the gather model -/

theorem nth?_map (f : α → β) (l : List α) (i : Nat) :
    nth? (l.map f) i = (nth? l i).map f := by
  induction l generalizing i with
  | nil => cases i <;> rfl
  | cons a t ih => cases i with
    | zero => rfl
    | succ n => simpa [nth?] using ih n

theorem nth?_lt_of_eq_some {l : List α} {i : Nat} {a : α}
    (h : nth? l i = some a) : i < l.length := by
  induction l generalizing i with
  | nil => cases i <;> simp [nth?] at h
  | cons b t ih => cases i with
    | zero => exact Nat.succ_pos _
    | succ n => exact Nat.succ_lt_succ (ih (by simpa [nth?] using h))

theorem nth?_eq_none_of_le {l : List α} {i : Nat} (h : l.length ≤ i) :
    nth? l i = none := by
  induction l generalizing i with
  | nil => cases i <;> rfl
  | cons b t ih => cases i with
    | zero => simp at h
    | succ n => exact ih (by simpa using h)

theorem nth?_eq_some_get {l : List α} {i : Nat} (h : i < l.length) :
    nth? l i = some (l.get ⟨i, h⟩) := by
  induction l generalizing i with
  | nil => simp at h
  | cons b t ih => cases i with
    | zero => rfl
    | succ n => simpa [nth?] using ih (by simpa using h)

theorem length_setSlot (l : List (Option α)) (i : Nat) (x : α) :
    (setSlot l i x).length = l.length := by
  induction l generalizing i with
  | nil => rfl
  | cons a t ih => cases i with
    | zero => rfl
    | succ n => simpa [setSlot] using ih n

theorem nth?_setSlot_self {l : List (Option α)} {i : Nat} (x : α)
    (h : i < l.length) : nth? (setSlot l i x) i = some (some x) := by
  induction l generalizing i with
  | nil => simp at h
  | cons a t ih => cases i with
    | zero => rfl
    | succ n => simpa [setSlot, nth?] using ih (by simpa using h)

theorem nth?_setSlot_other {l : List (Option α)} {i j : Nat} (x : α)
    (h : i ≠ j) : nth? (setSlot l j x) i = nth? l i := by
  induction l generalizing i j with
  | nil => cases j <;> rfl
  | cons a t ih => cases j with
    | zero => cases i with
      | zero => exact absurd rfl h
      | succ m => rfl
    | succ n => cases i with
      | zero => rfl
      | succ m =>
          have hmn : m ≠ n := fun he => h (by rw [he])
          simpa [setSlot, nth?] using ih hmn

theorem nth?_replicate_none (n i : Nat) :
    nth? (List.replicate n (none : Option α)) i = if i < n then some none else none := by
  induction n generalizing i with
  | zero => cases i <;> rfl
  | succ m ih => cases i with
    | zero => simp [List.replicate, nth?]
    | succ k => simpa [List.replicate, nth?, Nat.succ_lt_succ_iff] using ih k

theorem nth?_ext {l₁ l₂ : List α} (h : ∀ i, nth? l₁ i = nth? l₂ i) : l₁ = l₂ := by
  induction l₁ generalizing l₂ with
  | nil => cases l₂ with
    | nil => rfl
    | cons b t => exact absurd (h 0) (by simp [nth?])
  | cons a t ih => cases l₂ with
    | nil => exact absurd (h 0) (by simp [nth?])
    | cons b t' =>
        have h0 : some a = some b := h 0
        have ht : t = t' := ih (fun i => h (i + 1))
        simp [Option.some.injEq] at h0
        rw [h0, ht]

theorem filterMap_id_map_some (l : List α) :
    (l.map some).filterMap id = l := by
  induction l with
  | nil => rfl
  | cons a t ih => simp [List.filterMap, ih]

theorem foldl_gatherStep_length (results : List (Except Exc α))
    (order : List Nat) (acc : List (Option α)) :
    (order.foldl (gatherStep results) acc).length = acc.length := by
  induction order generalizing acc with
  | nil => rfl
  | cons j rest ih =>
      rw [List.foldl_cons, ih]
      unfold gatherStep
      cases nth? results j with
      | none => rfl
      | some r => cases r with
        | error e => rfl
        | ok v => exact length_setSlot acc j v

theorem foldl_gatherStep_nth_notMem (results : List (Except Exc α))
    {order : List Nat} {i : Nat} (h : i ∉ order) (acc : List (Option α)) :
    nth? (order.foldl (gatherStep results) acc) i = nth? acc i := by
  induction order generalizing acc with
  | nil => rfl
  | cons j rest ih =>
      have hij : i ≠ j := fun he => h (he ▸ List.mem_cons_self j rest)
      have hrest : i ∉ rest := fun hm => h (List.mem_cons_of_mem j hm)
      rw [List.foldl_cons, ih hrest]
      unfold gatherStep
      cases nth? results j with
      | none => rfl
      | some r => cases r with
        | error e => rfl
        | ok v => exact nth?_setSlot_other v hij

theorem foldl_gatherStep_nth_mem {results : List (Except Exc α)}
    {order : List Nat} {i : Nat} {v : α} (hmem : i ∈ order)
    (hv : nth? results i = some (Except.ok v)) (acc : List (Option α))
    (hacc : acc.length = results.length) :
    nth? (order.foldl (gatherStep results) acc) i = some (some v) := by
  induction order generalizing acc with
  | nil => simp at hmem
  | cons j rest ih =>
      rw [List.foldl_cons]
      by_cases hr : i ∈ rest
      · refine ih hr _ ?_
        rw [← hacc]
        unfold gatherStep
        cases nth? results j with
        | none => rfl
        | some r => cases r with
          | error e => rfl
          | ok w => exact length_setSlot acc j w
      · have hij : i = j := by
          rcases List.mem_cons.mp hmem with h | h
          · exact h
          · exact absurd h hr
        subst hij
        rw [foldl_gatherStep_nth_notMem results hr]
        unfold gatherStep
        rw [hv]
        exact nth?_setSlot_self v (hacc ▸ nth?_lt_of_eq_some hv)

theorem gatherFill_map_ok (vals : List α) (order : List Nat)
    (horder : order.Perm (List.range vals.length)) :
    gatherFill (vals.map Except.ok) order = vals.map some := by
  apply nth?_ext
  intro i
  by_cases hi : i < vals.length
  · have hmem : i ∈ order := horder.mem_iff.mpr (List.mem_range.mpr hi)
    have hv : nth? (vals.map Except.ok : List (Except Exc α)) i
        = some (Except.ok (vals.get ⟨i, hi⟩)) := by
      rw [nth?_map, nth?_eq_some_get hi]; rfl
    rw [gatherFill, foldl_gatherStep_nth_mem hmem hv _ (by simp [List.length_replicate])]
    rw [nth?_map, nth?_eq_some_get hi]
    rfl
  · have h1 : nth? (gatherFill (vals.map Except.ok) order) i = none := by
      apply nth?_eq_none_of_le
      rw [gatherFill, foldl_gatherStep_length, List.length_replicate, List.length_map]
      omega
    have h2 : nth? (vals.map some) i = none := by
      apply nth?_eq_none_of_le
      rw [List.length_map]; omega
    rw [h1, h2]

theorem firstErr_map_ok (vals : List α) (order : List Nat) :
    firstErr (vals.map Except.ok) order = none := by
  induction order with
  | nil => rfl
  | cons j rest ih =>
      unfold firstErr
      rw [nth?_map]
      cases nth? vals j with
      | none => exact ih
      | some v => exact ih

theorem gatherPy_map_ok (vals : List α) (order : List Nat)
    (horder : order.Perm (List.range vals.length)) :
    gatherPy (vals.map Except.ok) order = Except.ok vals := by
  unfold gatherPy
  rw [firstErr_map_ok]
  rw [collectOk, gatherFill_map_ok vals order horder, filterMap_id_map_some]

theorem firstErr_eq_some_exists {results : List (Except Exc α)}
    {order : List Nat} {e : Exc} (h : firstErr results order = some e) :
    ∃ i, i ∈ order ∧ nth? results i = some (Except.error e) := by
  induction order with
  | nil => simp [firstErr] at h
  | cons j rest ih =>
      unfold firstErr at h
      rcases hr : nth? results j with _ | r
      · rw [hr] at h
        rcases ih h with ⟨i, hmem, hi⟩
        exact ⟨i, List.mem_cons_of_mem j hmem, hi⟩
      · cases r with
        | error e' =>
            rw [hr] at h
            simp only [Option.some.injEq] at h
            exact ⟨j, List.mem_cons_self j rest, by rw [hr, h]⟩
        | ok v =>
            rw [hr] at h
            rcases ih h with ⟨i, hmem, hi⟩
            exact ⟨i, List.mem_cons_of_mem j hmem, hi⟩

theorem firstErr_isSome_of_mem {results : List (Except Exc α)}
    {order : List Nat} {i : Nat} {e : Exc} (hmem : i ∈ order)
    (hi : nth? results i = some (Except.error e)) :
    ∃ e', firstErr results order = some e' := by
  induction order with
  | nil => simp at hmem
  | cons j rest ih =>
      unfold firstErr
      rcases hr : nth? results j with _ | r
      · rcases List.mem_cons.mp hmem with h | h
        · subst h; rw [hi] at hr; cases hr
        · exact ih h
      · cases r with
        | error e' => exact ⟨e', rfl⟩
        | ok v =>
            rcases List.mem_cons.mp hmem with h | h
            · subst h; rw [hi] at hr; cases hr
            · exact ih h

theorem nth?_zip {l₁ : List α} {l₂ : List β} {i : Nat} {p : α × β}
    (h : nth? (l₁.zip l₂) i = some p) :
    nth? l₁ i = some p.1 ∧ nth? l₂ i = some p.2 := by
  induction l₁ generalizing l₂ i with
  | nil => simp [List.zip, nth?] at h
  | cons a t ih =>
      cases l₂ with
      | nil => simp [List.zip, nth?] at h
      | cons b t' => cases i with
        | zero =>
            simp only [nth?] at h ⊢
            simp only [List.zip_cons_cons, nth?, Option.some.injEq] at h
            rw [← h]
            exact ⟨rfl, rfl⟩
        | succ n =>
            simp only [List.zip_cons_cons, nth?] at h
            exact ih h

/-! ## `occursIn` lemmas: error messages carry their parts -/

theorem leadsList_self_append (s t : List Char) : leadsList s (s ++ t) = true := by
  induction s with
  | nil => rfl
  | cons c s' ih => simp [leadsList, ih]

theorem occursIn_self_append (s t : List Char) : occursIn s (s ++ t) = true := by
  cases s with
  | nil => cases t <;> rfl
  | cons c s' => simp [occursIn, leadsList, leadsList_self_append]

theorem occursIn_mid_append (pre sub post : List Char) :
    occursIn sub (pre ++ (sub ++ post)) = true := by
  induction pre with
  | nil => simpa using occursIn_self_append sub post
  | cons c pre' ih => simp [occursIn, ih]

theorem toList_append (a b : String) : (a ++ b).toList = a.toList ++ b.toList := by
  simp [String.toList, String.data_append]

/-! ## Evaluation lemmas: the five exit paths of `extract_from_upload` -/

theorem eval_validate_error (env : Env) (u : Upload) (fs : Fs) (e : Exc)
    (hval : _validate_extension u.filename = Except.error e) :
    extract_from_upload env u fs = ⟨Except.error e, ⟨false, false⟩, fs, none, false, false⟩ := by
  simp only [extract_from_upload, hval]

theorem eval_read_error (env : Env) (u : Upload) (fs : Fs) (m : String)
    (hval : _validate_extension u.filename = Except.ok ())
    (hre : env.readError = some m) :
    extract_from_upload env u fs
      = ⟨Except.error (Exc.other m), ⟨false, false⟩, fs, none, false, false⟩ := by
  simp only [extract_from_upload, hval, hre]

theorem eval_empty_payload (env : Env) (u : Upload) (fs : Fs)
    (hval : _validate_extension u.filename = Except.ok ())
    (hre : env.readError = none) (hp : u.payload = []) :
    extract_from_upload env u fs
      = ⟨Except.error (Exc.extractionError (emptyMsg u.filename)),
          ⟨true, true⟩, fs, none, false, false⟩ := by
  simp only [extract_from_upload, hval, hre, hp, if_pos]

theorem eval_write_error (env : Env) (u : Upload) (fs : Fs) (m : String)
    (hval : _validate_extension u.filename = Except.ok ())
    (hre : env.readError = none) (hp : u.payload ≠ [])
    (hwe : env.writeError = some m) :
    extract_from_upload env u fs
      = ⟨Except.error (Exc.extractionError (engineFailMsg u.filename m)),
          ⟨true, true⟩, ⟨fs.files ++ [(env.fileId, suffixOrBin u.filename)]⟩,
          some (env.fileId, suffixOrBin u.filename), false, false⟩ := by
  simp only [extract_from_upload, hval, hre, hwe, if_neg hp]

theorem eval_engine_error (env : Env) (u : Upload) (fs : Fs) (m : String)
    (hval : _validate_extension u.filename = Except.ok ())
    (hre : env.readError = none) (hp : u.payload ≠ [])
    (hwe : env.writeError = none)
    (heng : env.engine u.payload (suffixOrBin u.filename) = Except.error m) :
    extract_from_upload env u fs
      = ⟨Except.error (Exc.extractionError (engineFailMsg u.filename m)),
          ⟨true, true⟩, afterCleanupFs env fs (suffixOrBin u.filename),
          some (env.fileId, suffixOrBin u.filename), true, true⟩ := by
  simp only [extract_from_upload, hval, hre, hwe, heng, if_neg hp]

theorem eval_engine_ok (env : Env) (u : Upload) (fs : Fs) (elems : List Element)
    (hval : _validate_extension u.filename = Except.ok ())
    (hre : env.readError = none) (hp : u.payload ≠ [])
    (hwe : env.writeError = none)
    (heng : env.engine u.payload (suffixOrBin u.filename) = Except.ok elems) :
    extract_from_upload env u fs
      = ⟨Except.ok ⟨u.filename, elems.map Element.to_dict⟩,
          ⟨true, true⟩, afterCleanupFs env fs (suffixOrBin u.filename),
          some (env.fileId, suffixOrBin u.filename), true, true⟩ := by
  simp only [extract_from_upload, hval, hre, hwe, heng, if_neg hp]

/-- Exhaustive case split over the six exit paths of `extract_from_upload`. -/
theorem pipeline_branches (env : Env) (u : Upload) (fs : Fs) :
    (∃ e, _validate_extension u.filename = Except.error e ∧
      extract_from_upload env u fs
        = ⟨Except.error e, ⟨false, false⟩, fs, none, false, false⟩) ∨
    (∃ m, _validate_extension u.filename = Except.ok () ∧ env.readError = some m ∧
      extract_from_upload env u fs
        = ⟨Except.error (Exc.other m), ⟨false, false⟩, fs, none, false, false⟩) ∨
    (_validate_extension u.filename = Except.ok () ∧ env.readError = none ∧
      u.payload = [] ∧
      extract_from_upload env u fs
        = ⟨Except.error (Exc.extractionError (emptyMsg u.filename)),
            ⟨true, true⟩, fs, none, false, false⟩) ∨
    (∃ m, _validate_extension u.filename = Except.ok () ∧ env.readError = none ∧
      u.payload ≠ [] ∧ env.writeError = some m ∧
      extract_from_upload env u fs
        = ⟨Except.error (Exc.extractionError (engineFailMsg u.filename m)),
            ⟨true, true⟩, ⟨fs.files ++ [(env.fileId, suffixOrBin u.filename)]⟩,
            some (env.fileId, suffixOrBin u.filename), false, false⟩) ∨
    (∃ m, _validate_extension u.filename = Except.ok () ∧ env.readError = none ∧
      u.payload ≠ [] ∧ env.writeError = none ∧
      env.engine u.payload (suffixOrBin u.filename) = Except.error m ∧
      extract_from_upload env u fs
        = ⟨Except.error (Exc.extractionError (engineFailMsg u.filename m)),
            ⟨true, true⟩, afterCleanupFs env fs (suffixOrBin u.filename),
            some (env.fileId, suffixOrBin u.filename), true, true⟩) ∨
    (∃ elems, _validate_extension u.filename = Except.ok () ∧ env.readError = none ∧
      u.payload ≠ [] ∧ env.writeError = none ∧
      env.engine u.payload (suffixOrBin u.filename) = Except.ok elems ∧
      extract_from_upload env u fs
        = ⟨Except.ok ⟨u.filename, elems.map Element.to_dict⟩,
            ⟨true, true⟩, afterCleanupFs env fs (suffixOrBin u.filename),
            some (env.fileId, suffixOrBin u.filename), true, true⟩) := by
  cases hval : _validate_extension u.filename with
  | error e => exact Or.inl ⟨e, rfl, eval_validate_error env u fs e hval⟩
  | ok v =>
    cases v
    cases hre : env.readError with
    | some m =>
        exact Or.inr (Or.inl ⟨m, rfl, rfl, eval_read_error env u fs m hval hre⟩)
    | none =>
      by_cases hp : u.payload = []
      · exact Or.inr (Or.inr (Or.inl ⟨rfl, rfl, hp, eval_empty_payload env u fs hval hre hp⟩))
      · cases hwe : env.writeError with
        | some m =>
            exact Or.inr (Or.inr (Or.inr (Or.inl
              ⟨m, rfl, rfl, hp, rfl, eval_write_error env u fs m hval hre hp hwe⟩)))
        | none =>
          cases heng : env.engine u.payload (suffixOrBin u.filename) with
          | error m =>
              exact Or.inr (Or.inr (Or.inr (Or.inr (Or.inl
                ⟨m, rfl, rfl, hp, rfl, rfl,
                  eval_engine_error env u fs m hval hre hp hwe heng⟩))))
          | ok elems =>
              exact Or.inr (Or.inr (Or.inr (Or.inr (Or.inr
                ⟨elems, rfl, rfl, hp, rfl, rfl,
                  eval_engine_ok env u fs elems hval hre hp hwe heng⟩))))

/-- The pipeline's result does not depend on whether the `finally` block's
`os.remove` succeeds: a cleanup failure is swallowed, never raised. -/
theorem result_removeOk_indep (engine : List Byte → String → Except String (List Element))
    (re we : Option String) (fid : Nat) (b₁ b₂ : Bool) (u : Upload) (fs : Fs) :
    (extract_from_upload ⟨engine, re, we, b₁, fid⟩ u fs).result
      = (extract_from_upload ⟨engine, re, we, b₂, fid⟩ u fs).result := by
  cases hval : _validate_extension u.filename with
  | error e =>
      rw [eval_validate_error ⟨engine, re, we, b₁, fid⟩ u fs e hval,
          eval_validate_error ⟨engine, re, we, b₂, fid⟩ u fs e hval]
  | ok v =>
      cases v
      cases re with
      | some m =>
          rw [eval_read_error ⟨engine, some m, we, b₁, fid⟩ u fs m hval rfl,
              eval_read_error ⟨engine, some m, we, b₂, fid⟩ u fs m hval rfl]
      | none =>
          by_cases hp : u.payload = []
          · rw [eval_empty_payload ⟨engine, none, we, b₁, fid⟩ u fs hval rfl hp,
                eval_empty_payload ⟨engine, none, we, b₂, fid⟩ u fs hval rfl hp]
          · cases we with
            | some m =>
                rw [eval_write_error ⟨engine, none, some m, b₁, fid⟩ u fs m hval rfl hp rfl,
                    eval_write_error ⟨engine, none, some m, b₂, fid⟩ u fs m hval rfl hp rfl]
            | none =>
              cases heng : engine u.payload (suffixOrBin u.filename) with
              | error m =>
                  rw [eval_engine_error ⟨engine, none, none, b₁, fid⟩ u fs m hval rfl hp rfl heng,
                      eval_engine_error ⟨engine, none, none, b₂, fid⟩ u fs m hval rfl hp rfl heng]
              | ok elems =>
                  rw [eval_engine_ok ⟨engine, none, none, b₁, fid⟩ u fs elems hval rfl hp rfl heng,
                      eval_engine_ok ⟨engine, none, none, b₂, fid⟩ u fs elems hval rfl hp rfl heng]

/-- Every `ExtractionError` message the pipeline raises names the offending
document's filename, or (for the unsupported-format error) its suffix. -/
theorem pipeline_msg (env : Env) (u : Upload) (fs : Fs) (m : String)
    (h : (extract_from_upload env u fs).result = Except.error (Exc.extractionError m)) :
    occursIn (optStr u.filename).toList m.toList = true ∨
    occursIn (_normalized_suffix u.filename).toList m.toList = true := by
  rcases pipeline_branches env u fs with
    ⟨e, hval, heq⟩ | ⟨m', _, _, heq⟩ | ⟨_, _, _, heq⟩ |
    ⟨m', _, _, _, _, heq⟩ | ⟨m', _, _, _, _, _, heq⟩ | ⟨elems, _, _, _, _, _, heq⟩
  · rw [heq] at h
    simp only at h
    injection h with h1
    unfold _validate_extension at hval
    split at hval
    · injection hval with h2
      rw [← h2] at h1
      injection h1 with h3
      right
      rw [← h3]
      unfold unsupportedMsg
      rw [toList_append, toList_append, List.append_assoc]
      exact occursIn_mid_append _ _ _
    · cases hval
  · rw [heq] at h
    simp only at h
    injection h with h1
    cases h1
  · rw [heq] at h
    simp only at h
    injection h with h1
    injection h1 with h2
    left
    rw [← h2]
    unfold emptyMsg
    rw [toList_append, toList_append, List.append_assoc]
    exact occursIn_mid_append _ _ _
  · rw [heq] at h
    simp only at h
    injection h with h1
    injection h1 with h2
    left
    rw [← h2]
    unfold engineFailMsg
    rw [toList_append, toList_append, toList_append, List.append_assoc, List.append_assoc]
    exact occursIn_mid_append _ _ _
  · rw [heq] at h
    simp only at h
    injection h with h1
    injection h1 with h2
    left
    rw [← h2]
    unfold engineFailMsg
    rw [toList_append, toList_append, toList_append, List.append_assoc, List.append_assoc]
    exact occursIn_mid_append _ _ _
  · rw [heq] at h
    simp only at h
    cases h

/-! ## Claim theorems: the Upload Pipeline -/

/-- C4: an upload whose filename has a (lowercased) suffix outside the
allow-list is rejected with the unsupported-format `ExtractionError` with no
temp file created, no engine invocation, and the filesystem untouched. -/
theorem unsupported_rejected_early (env : Env) (u : Upload) (fs : Fs)
    (h1 : _normalized_suffix u.filename ≠ "")
    (h2 : _normalized_suffix u.filename ∉ SUPPORTED_EXTENSIONS) :
    extract_from_upload env u fs
      = ⟨Except.error (Exc.extractionError (unsupportedMsg (_normalized_suffix u.filename))),
          ⟨false, false⟩, fs, none, false, false⟩ := by
  apply eval_validate_error
  unfold _validate_extension
  rw [if_pos ⟨h1, h2⟩]

/-- C4 witness: `doc.xyz` is rejected early, concretely. -/
theorem unsupported_rejected_early_witness :
    extract_from_upload ⟨fun _ _ => Except.ok [], none, none, true, 0⟩ ⟨some "doc.xyz", [1]⟩ ⟨[]⟩
      = ⟨Except.error (Exc.extractionError (unsupportedMsg (_normalized_suffix (some "doc.xyz")))),
          ⟨false, false⟩, ⟨[]⟩, none, false, false⟩ :=
  unsupported_rejected_early ⟨fun _ _ => Except.ok [], none, none, true, 0⟩ ⟨some "doc.xyz", [1]⟩ ⟨[]⟩
    (by decide) (by decide)

/-- C9: when extension validation fails, the pipeline raises before the
payload is read and before the source is closed: the stream is left unread
and open, no temp file is created, the engine is not invoked, and the
filesystem is unchanged. -/
theorem validation_failure_frame (env : Env) (u : Upload) (fs : Fs) (e : Exc)
    (h : _validate_extension u.filename = Except.error e) :
    (extract_from_upload env u fs).result = Except.error e ∧
    (extract_from_upload env u fs).upState = ⟨false, false⟩ ∧
    (extract_from_upload env u fs).fs = fs ∧
    (extract_from_upload env u fs).created = none ∧
    (extract_from_upload env u fs).engineInvoked = false := by
  rw [eval_validate_error env u fs e h]
  exact ⟨rfl, rfl, rfl, rfl, rfl⟩

/-- C9 witness: the frame condition at a concrete rejected upload. -/
theorem validation_failure_frame_witness :
    (extract_from_upload ⟨fun _ _ => Except.ok [], none, none, true, 3⟩ ⟨some "doc.xyz", [9]⟩
        ⟨[(1, ".txt")]⟩).result
      = Except.error (Exc.extractionError (unsupportedMsg ".xyz")) ∧
    (extract_from_upload ⟨fun _ _ => Except.ok [], none, none, true, 3⟩ ⟨some "doc.xyz", [9]⟩
        ⟨[(1, ".txt")]⟩).upState = ⟨false, false⟩ ∧
    (extract_from_upload ⟨fun _ _ => Except.ok [], none, none, true, 3⟩ ⟨some "doc.xyz", [9]⟩
        ⟨[(1, ".txt")]⟩).fs = ⟨[(1, ".txt")]⟩ ∧
    (extract_from_upload ⟨fun _ _ => Except.ok [], none, none, true, 3⟩ ⟨some "doc.xyz", [9]⟩
        ⟨[(1, ".txt")]⟩).created = none ∧
    (extract_from_upload ⟨fun _ _ => Except.ok [], none, none, true, 3⟩ ⟨some "doc.xyz", [9]⟩
        ⟨[(1, ".txt")]⟩).engineInvoked = false :=
  validation_failure_frame ⟨fun _ _ => Except.ok [], none, none, true, 3⟩ ⟨some "doc.xyz", [9]⟩
    ⟨[(1, ".txt")]⟩ (Exc.extractionError (unsupportedMsg ".xyz")) (by decide)

/-- C2 counterexample: an invocation whose write into the just-created
Transient File fails (extraction.py lines 79-81) creates the file but never
attempts its removal — `temp_path` is still `None` at the `finally` block,
so its guard skips `os.remove` and the file is orphaned — refuting "removal
is attempted on every exit path of an invocation that created the file". -/
theorem cleanup_skipped_on_write_failure_cex :
    (extract_from_upload ⟨fun _ _ => Except.ok [], none,
        some "No space left on device", true, 7⟩
        ⟨some "a.pdf", [1]⟩ ⟨[]⟩).created = some (7, ".pdf") ∧
    (extract_from_upload ⟨fun _ _ => Except.ok [], none,
        some "No space left on device", true, 7⟩
        ⟨some "a.pdf", [1]⟩ ⟨[]⟩).removalAttempted = false ∧
    (extract_from_upload ⟨fun _ _ => Except.ok [], none,
        some "No space left on device", true, 7⟩
        ⟨some "a.pdf", [1]⟩ ⟨[]⟩).fs = ⟨[(7, ".pdf")]⟩ :=
  ⟨rfl, rfl, rfl⟩

/-- C2 (amended): every invocation that creates a Transient File and whose
write into it succeeds attempts the file's removal before completing (on
success and on engine failure alike); a removal failure is swallowed (the
invocation's result is the same whether or not `os.remove` succeeds); and
when removal succeeds the transient file no longer exists afterwards — in
particular after a successful call. When the write into the just-created
file itself fails, no removal is attempted and the file is orphaned. -/
theorem transient_file_cleanup (env : Env) (u : Upload) (fs : Fs)
    (fid : Nat) (sfx : String)
    (hw : env.writeError = none)
    (hc : (extract_from_upload env u fs).created = some (fid, sfx)) :
    (extract_from_upload env u fs).removalAttempted = true ∧
    ((extract_from_upload
        ⟨env.engine, env.readError, env.writeError, true, env.fileId⟩ u fs).result
      = (extract_from_upload
        ⟨env.engine, env.readError, env.writeError, false, env.fileId⟩ u fs).result) ∧
    (env.removeOk = true →
      ∀ p ∈ (extract_from_upload env u fs).fs.files, p.1 ≠ fid) := by
  have hind := result_removeOk_indep env.engine env.readError env.writeError
    env.fileId true false u fs
  rcases pipeline_branches env u fs with
    ⟨e, _, heq⟩ | ⟨m, _, _, heq⟩ | ⟨_, _, _, heq⟩ |
    ⟨m, _, _, _, hwe, heq⟩ | ⟨m, _, _, _, _, _, heq⟩ | ⟨elems, _, _, _, _, _, heq⟩
  · rw [heq] at hc; simp at hc
  · rw [heq] at hc; simp at hc
  · rw [heq] at hc; simp at hc
  · rw [hw] at hwe; cases hwe
  · rw [heq] at hc
    simp only [Option.some.injEq, Prod.mk.injEq] at hc
    refine ⟨by rw [heq], hind, ?_⟩
    intro hrem p hpmem
    rw [heq] at hpmem
    simp only [afterCleanupFs, hrem, if_true, List.mem_filter,
      decide_eq_true_eq] at hpmem
    rw [← hc.1]
    exact hpmem.2
  · rw [heq] at hc
    simp only [Option.some.injEq, Prod.mk.injEq] at hc
    refine ⟨by rw [heq], hind, ?_⟩
    intro hrem p hpmem
    rw [heq] at hpmem
    simp only [afterCleanupFs, hrem, if_true, List.mem_filter,
      decide_eq_true_eq] at hpmem
    rw [← hc.1]
    exact hpmem.2

/-- C2 witness: a successful concrete call creates a transient file, attempts
its removal, and leaves no file with its unique name behind. -/
theorem transient_file_cleanup_witness :
    (extract_from_upload ⟨fun _ _ => Except.ok [], none, none, true, 5⟩
        ⟨some "a.pdf", [1]⟩ ⟨[]⟩).removalAttempted = true ∧
    ((extract_from_upload ⟨fun _ _ => Except.ok [], none, none, true, 5⟩
        ⟨some "a.pdf", [1]⟩ ⟨[]⟩).result
      = (extract_from_upload ⟨fun _ _ => Except.ok [], none, none, false, 5⟩
        ⟨some "a.pdf", [1]⟩ ⟨[]⟩).result) ∧
    (true = true →
      ∀ p ∈ (extract_from_upload ⟨fun _ _ => Except.ok [], none, none, true, 5⟩
        ⟨some "a.pdf", [1]⟩ ⟨[]⟩).fs.files, p.1 ≠ 5) :=
  transient_file_cleanup ⟨fun _ _ => Except.ok [], none, none, true, 5⟩
    ⟨some "a.pdf", [1]⟩ ⟨[]⟩ 5 ".pdf" rfl rfl

/-- C5 counterexample: an I/O failure of the write into the Transient File
(scoped persistence) is wrapped like any other `try`-block failure, but no
cleanup is attempted before re-raising — `temp_path` is `None` at the
`finally` block — refuting "attempts cleanup" for persistence failures. -/
theorem write_failure_no_cleanup_cex :
    (extract_from_upload ⟨fun _ _ => Except.ok [], none,
        some "No space left on device", true, 7⟩
        ⟨some "b.pdf", [1]⟩ ⟨[]⟩).result
      = Except.error (Exc.extractionError
          (engineFailMsg (some "b.pdf") "No space left on device")) ∧
    (extract_from_upload ⟨fun _ _ => Except.ok [], none,
        some "No space left on device", true, 7⟩
        ⟨some "b.pdf", [1]⟩ ⟨[]⟩).removalAttempted = false :=
  ⟨rfl, rfl⟩

/-- C5 (amended): every exception raised during scoped persistence (the
write into the Transient File) or engine extraction is wrapped into an
`ExtractionError` whose message carries the original filename and the
underlying cause, and the wrapped error is what is raised — no raw
exception (a non-`ExtractionError`) escapes the `try` block. Cleanup is
attempted before re-raising exactly when the failure is the engine's; for a
failure of the write itself no cleanup is attempted (the file is
orphaned). -/
theorem pipeline_failure_wrapped (env : Env) (u : Upload) (fs : Fs) (cause : String)
    (hval : _validate_extension u.filename = Except.ok ())
    (hre : env.readError = none) (hp : u.payload ≠ [])
    (hfail : env.writeError = some cause ∨
      (env.writeError = none ∧
        env.engine u.payload (suffixOrBin u.filename) = Except.error cause)) :
    (extract_from_upload env u fs).result
      = Except.error (Exc.extractionError (engineFailMsg u.filename cause)) ∧
    occursIn (optStr u.filename).toList (engineFailMsg u.filename cause).toList = true ∧
    occursIn cause.toList (engineFailMsg u.filename cause).toList = true ∧
    (∀ m, (extract_from_upload env u fs).result ≠ Except.error (Exc.other m)) ∧
    (extract_from_upload env u fs).removalAttempted = env.writeError.isNone := by
  have hocc1 : occursIn (optStr u.filename).toList
      (engineFailMsg u.filename cause).toList = true := by
    unfold engineFailMsg
    rw [toList_append, toList_append, toList_append, List.append_assoc, List.append_assoc]
    exact occursIn_mid_append _ _ _
  have hocc2 : occursIn cause.toList (engineFailMsg u.filename cause).toList = true := by
    unfold engineFailMsg
    rw [toList_append]
    have h0 := occursIn_mid_append
      (("Failed to extract '" ++ optStr u.filename ++ "': ").toList) cause.toList []
    simpa using h0
  rcases hfail with hwe | ⟨hwe, heng⟩
  · have heq := eval_write_error env u fs cause hval hre hp hwe
    refine ⟨by rw [heq], hocc1, hocc2, ?_, ?_⟩
    · intro m hcon
      rw [heq] at hcon
      simp at hcon
    · rw [heq, hwe]
      rfl
  · have heq := eval_engine_error env u fs cause hval hre hp hwe heng
    refine ⟨by rw [heq], hocc1, hocc2, ?_, ?_⟩
    · intro m hcon
      rw [heq] at hcon
      simp at hcon
    · rw [heq, hwe]
      rfl

/-- C5 witness: a concrete engine failure `boom` on `a.pdf` is wrapped and
cleanup is attempted. -/
theorem pipeline_failure_wrapped_witness :
    (extract_from_upload ⟨fun _ _ => Except.error "boom", none, none, true, 0⟩
        ⟨some "a.pdf", [1]⟩ ⟨[]⟩).result
      = Except.error (Exc.extractionError (engineFailMsg (some "a.pdf") "boom")) ∧
    occursIn (optStr (some "a.pdf")).toList
      (engineFailMsg (some "a.pdf") "boom").toList = true ∧
    occursIn "boom".toList (engineFailMsg (some "a.pdf") "boom").toList = true ∧
    (∀ m, (extract_from_upload ⟨fun _ _ => Except.error "boom", none, none, true, 0⟩
        ⟨some "a.pdf", [1]⟩ ⟨[]⟩).result ≠ Except.error (Exc.other m)) ∧
    (extract_from_upload ⟨fun _ _ => Except.error "boom", none, none, true, 0⟩
        ⟨some "a.pdf", [1]⟩ ⟨[]⟩).removalAttempted
      = (none : Option String).isNone :=
  pipeline_failure_wrapped ⟨fun _ _ => Except.error "boom", none, none, true, 0⟩
    ⟨some "a.pdf", [1]⟩ ⟨[]⟩ "boom" (by decide) rfl (by decide) (Or.inr ⟨rfl, rfl⟩)

/-- C6 counterexample: an empty payload does not fail with the empty-payload
error for every filename — `notes.xyz` (empty payload, unsupported suffix)
fails with the unsupported-format error instead, because extension
validation runs first. -/
theorem empty_payload_cex :
    (extract_from_upload ⟨fun _ _ => Except.ok [], none, none, true, 0⟩
        ⟨some "notes.xyz", []⟩ ⟨[]⟩).result
      = Except.error (Exc.extractionError (unsupportedMsg ".xyz")) ∧
    unsupportedMsg ".xyz" ≠ emptyMsg (some "notes.xyz") :=
  ⟨rfl, by decide⟩

/-- C6 (amended): an upload whose payload is zero-length and whose filename
passes extension validation fails with the empty-payload `ExtractionError`,
after the payload is read and the source closed, before any temp file is
created and without invoking the engine. -/
theorem empty_payload_rejected (env : Env) (u : Upload) (fs : Fs)
    (hval : _validate_extension u.filename = Except.ok ())
    (hre : env.readError = none) (hp : u.payload = []) :
    extract_from_upload env u fs
      = ⟨Except.error (Exc.extractionError (emptyMsg u.filename)),
          ⟨true, true⟩, fs, none, false, false⟩ :=
  eval_empty_payload env u fs hval hre hp

/-- C6 witness: an empty `a.pdf` upload is rejected as empty, concretely. -/
theorem empty_payload_rejected_witness :
    extract_from_upload ⟨fun _ _ => Except.ok [], none, none, true, 0⟩ ⟨some "a.pdf", []⟩ ⟨[]⟩
      = ⟨Except.error (Exc.extractionError (emptyMsg (some "a.pdf"))),
          ⟨true, true⟩, ⟨[]⟩, none, false, false⟩ :=
  empty_payload_rejected ⟨fun _ _ => Except.ok [], none, none, true, 0⟩ ⟨some "a.pdf", []⟩ ⟨[]⟩
    (by decide) rfl rfl

/-- C8: a filename with no suffix passes extension validation (the
allow-list check is bypassed), and the transient file the pipeline persists
to carries the generic fallback extension `.bin`. -/
theorem no_suffix_accepted_bin_fallback (env : Env) (u : Upload) (fs : Fs)
    (hsuf : _normalized_suffix u.filename = "")
    (hre : env.readError = none) (hp : u.payload ≠ []) :
    _validate_extension u.filename = Except.ok () ∧
    (extract_from_upload env u fs).created = some (env.fileId, ".bin") := by
  have hval : _validate_extension u.filename = Except.ok () := by
    unfold _validate_extension
    rw [if_neg]
    intro hcon
    exact hcon.1 hsuf
  have hbin : suffixOrBin u.filename = ".bin" := by
    unfold suffixOrBin
    rw [if_pos hsuf]
  refine ⟨hval, ?_⟩
  cases hwe : env.writeError with
  | some m =>
      rw [eval_write_error env u fs m hval hre hp hwe]
      simp [hbin]
  | none =>
    cases heng : env.engine u.payload (suffixOrBin u.filename) with
    | error m =>
        rw [eval_engine_error env u fs m hval hre hp hwe heng]
        simp [hbin]
    | ok elems =>
        rw [eval_engine_ok env u fs elems hval hre hp hwe heng]
        simp [hbin]

/-- C8 witness: `README` (no suffix) is accepted and persisted as `.bin`. -/
theorem no_suffix_accepted_bin_fallback_witness :
    _validate_extension (some "README") = Except.ok () ∧
    (extract_from_upload ⟨fun _ _ => Except.ok [], none, none, true, 4⟩
        ⟨some "README", [1]⟩ ⟨[]⟩).created = some (4, ".bin") :=
  no_suffix_accepted_bin_fallback ⟨fun _ _ => Except.ok [], none, none, true, 4⟩
    ⟨some "README", [1]⟩ ⟨[]⟩ (by decide) rfl (by decide)

/-- C10: an upload with no client-supplied filename and a nonempty payload
succeeds when the engine succeeds, returning a result whose filename field
is the absent value (`None`, not a string) and whose elements are the
engine's emissions, converted to mappings in emission order. -/
theorem no_filename_passthrough (env : Env) (fs : Fs) (payload : List Byte)
    (elems : List Element)
    (hp : payload ≠ []) (hre : env.readError = none) (hwe : env.writeError = none)
    (heng : env.engine payload ".bin" = Except.ok elems) :
    (extract_from_upload env ⟨none, payload⟩ fs).result
      = Except.ok ⟨none, elems.map Element.to_dict⟩ := by
  have hval : _validate_extension (none : Option String) = Except.ok () := rfl
  have heng' : env.engine payload (suffixOrBin (none : Option String))
      = Except.ok elems := heng
  rw [eval_engine_ok env ⟨none, payload⟩ fs elems hval hre hp hwe heng']

/-- C10 witness: a nameless upload succeeds and reports `filename := none`. -/
theorem no_filename_passthrough_witness :
    (extract_from_upload ⟨fun _ _ => Except.ok [⟨[("text", "hi")]⟩], none, none, true, 0⟩
        ⟨none, [7]⟩ ⟨[]⟩).result
      = Except.ok ⟨none, [⟨[("text", "hi")]⟩].map Element.to_dict⟩ :=
  no_filename_passthrough ⟨fun _ _ => Except.ok [⟨[("text", "hi")]⟩], none, none, true, 0⟩
    ⟨[]⟩ [7] [⟨[("text", "hi")]⟩] (by decide) rfl rfl rfl

/-! ## Claim theorems: the Request Orchestrator -/

theorem nth?_batch {envs : List Env} {files : List Upload} {fs : Fs} {j : Nat}
    {r : Except Exc ExtractionResult}
    (h : nth? ((batchOutcomes envs files fs).map Outcome.result) j = some r) :
    ∃ u env, nth? files j = some u ∧ nth? envs j = some env ∧
      (extract_from_upload env u fs).result = r := by
  rw [batchOutcomes, nth?_map, nth?_map] at h
  cases hz : nth? (files.zip envs) j with
  | none => rw [hz] at h; cases h
  | some p =>
      rw [hz] at h
      obtain ⟨h1, h2⟩ := nth?_zip hz
      refine ⟨p.1, p.2, h1, h2, ?_⟩
      injection h

theorem files_ne_nil_of_nth? {files : List Upload} {j : Nat} {u : Upload}
    (h : nth? files j = some u) : files ≠ [] := by
  intro hnil
  subst hnil
  cases j <;> cases h

/-- C7: the empty batch is rejected with a 400 client error whose detail is
`No files provided for extraction.`, and no extraction is attempted. -/
theorem empty_batch_rejected (envs : List Env) (order : List Nat) (fs : Fs) :
    extract envs order [] fs
      = Response.httpError 400 "No files provided for extraction." ∧
    batchOutcomes envs [] fs = [] :=
  ⟨rfl, rfl⟩

/-- C3: when every document in a nonempty batch succeeds, the response is a
200 Batch Result whose documents are in input order, for every completion
order of the concurrent pipeline invocations. -/
theorem batch_preserves_order (envs : List Env) (order : List Nat)
    (files : List Upload) (fs : Fs) (vals : List ExtractionResult)
    (hne : files ≠ [])
    (hok : (batchOutcomes envs files fs).map Outcome.result = vals.map Except.ok)
    (horder : order.Perm (List.range vals.length)) :
    extract envs order files fs = Response.ok vals := by
  unfold extract
  rw [if_neg hne, hok, gatherPy_map_ok vals order horder]

/-- C3 witness: a two-document batch whose second document completes first
still yields `[result(a), result(b)]` in input order. -/
theorem batch_preserves_order_witness :
    extract
      [⟨fun _ _ => Except.ok [⟨[("doc", "a")]⟩], none, none, true, 0⟩,
       ⟨fun _ _ => Except.ok [⟨[("doc", "b")]⟩], none, none, true, 1⟩]
      [1, 0]
      [⟨some "a.pdf", [1]⟩, ⟨some "b.txt", [2]⟩] ⟨[]⟩
      = Response.ok
          [⟨some "a.pdf", [[("doc", "a")]]⟩, ⟨some "b.txt", [[("doc", "b")]]⟩] :=
  batch_preserves_order
    [⟨fun _ _ => Except.ok [⟨[("doc", "a")]⟩], none, none, true, 0⟩,
     ⟨fun _ _ => Except.ok [⟨[("doc", "b")]⟩], none, none, true, 1⟩]
    [1, 0]
    [⟨some "a.pdf", [1]⟩, ⟨some "b.txt", [2]⟩] ⟨[]⟩
    [⟨some "a.pdf", [[("doc", "a")]]⟩, ⟨some "b.txt", [[("doc", "b")]]⟩]
    (by simp) rfl (by decide)

/-- C1 counterexample: a batch whose only document fails with the
unsupported-format `ExtractionError` yields a 400 response, but its detail
does not identify the offending document — the filename `doc.xyz` does not
occur in the detail (only the suffix does). -/
theorem fail_detail_lacks_filename_cex :
    extract [⟨fun _ _ => Except.ok [], none, none, true, 0⟩] [0]
        [⟨some "doc.xyz", [1]⟩] ⟨[]⟩
      = Response.httpError 400 (unsupportedMsg ".xyz") ∧
    occursIn "doc.xyz".toList (unsupportedMsg ".xyz").toList = false :=
  ⟨rfl, by decide⟩

/-- C1 (amended): if any document's pipeline invocation fails, the batch
produces no Batch Result and surfaces a single failing document's failure:
an `ExtractionError` yields a 400 response whose detail is the error's
message — which names the reason and the offending document's filename,
except for the unsupported-format error which names only the offending
suffix — and any other failure yields a 500 response with the generic
detail. -/
theorem batch_fail_fast (envs : List Env) (order : List Nat)
    (files : List Upload) (fs : Fs)
    (horder : order.Perm (List.range (batchOutcomes envs files fs).length))
    (hfail : ∃ i e, nth? ((batchOutcomes envs files fs).map Outcome.result) i
        = some (Except.error e)) :
    (∀ docs, extract envs order files fs ≠ Response.ok docs) ∧
    (∃ j u env e, nth? files j = some u ∧ nth? envs j = some env ∧
      (extract_from_upload env u fs).result = Except.error e ∧
      ((∃ m, e = Exc.extractionError m ∧
          extract envs order files fs = Response.httpError 400 m ∧
          (occursIn (optStr u.filename).toList m.toList = true ∨
           occursIn (_normalized_suffix u.filename).toList m.toList = true)) ∨
       (∃ m, e = Exc.other m ∧
          extract envs order files fs
            = Response.httpError 500 ("Unexpected extraction failure: " ++ m)))) := by
  obtain ⟨i, e0, hi⟩ := hfail
  have hilt : i < ((batchOutcomes envs files fs).map Outcome.result).length :=
    nth?_lt_of_eq_some hi
  rw [List.length_map] at hilt
  have himem : i ∈ order := horder.mem_iff.mpr (List.mem_range.mpr hilt)
  obtain ⟨e, hfe⟩ := firstErr_isSome_of_mem himem hi
  obtain ⟨j, hjmem, hj⟩ := firstErr_eq_some_exists hfe
  obtain ⟨u, env, hu, henv, hr⟩ := nth?_batch hj
  have hne : files ≠ [] := files_ne_nil_of_nth? hu
  have hgather : gatherPy ((batchOutcomes envs files fs).map Outcome.result) order
      = Except.error e := by
    unfold gatherPy
    rw [hfe]
  cases e with
  | extractionError m =>
      have hext : extract envs order files fs = Response.httpError 400 m := by
        unfold extract
        rw [if_neg hne, hgather]
      refine ⟨?_, j, u, env, Exc.extractionError m, hu, henv, hr,
        Or.inl ⟨m, rfl, hext, pipeline_msg env u fs m hr⟩⟩
      intro docs hcon
      rw [hext] at hcon
      exact Response.noConfusion hcon
  | other m =>
      have hext : extract envs order files fs
          = Response.httpError 500 ("Unexpected extraction failure: " ++ m) := by
        unfold extract
        rw [if_neg hne, hgather]
      refine ⟨?_, j, u, env, Exc.other m, hu, henv, hr, Or.inr ⟨m, rfl, hext⟩⟩
      intro docs hcon
      rw [hext] at hcon
      exact Response.noConfusion hcon

/-- C1 witness: a batch containing one empty document surfaces that
document's `ExtractionError` as a 400 response. -/
theorem batch_fail_fast_witness :
    ∃ j u env e,
      nth? [(⟨some "a.pdf", []⟩ : Upload)] j = some u ∧
      nth? [(⟨fun _ _ => Except.ok [], none, none, true, 0⟩ : Env)] j = some env ∧
      (extract_from_upload env u ⟨[]⟩).result = Except.error e ∧
      ((∃ m, e = Exc.extractionError m ∧
          extract [⟨fun _ _ => Except.ok [], none, none, true, 0⟩] [0]
              [⟨some "a.pdf", []⟩] ⟨[]⟩
            = Response.httpError 400 m ∧
          (occursIn (optStr u.filename).toList m.toList = true ∨
           occursIn (_normalized_suffix u.filename).toList m.toList = true)) ∨
       (∃ m, e = Exc.other m ∧
          extract [⟨fun _ _ => Except.ok [], none, none, true, 0⟩] [0]
              [⟨some "a.pdf", []⟩] ⟨[]⟩
            = Response.httpError 500 ("Unexpected extraction failure: " ++ m))) :=
  (batch_fail_fast [⟨fun _ _ => Except.ok [], none, none, true, 0⟩] [0]
    [⟨some "a.pdf", []⟩] ⟨[]⟩ (by decide)
    ⟨0, Exc.extractionError (emptyMsg (some "a.pdf")), rfl⟩).2

end UnstructuredSvc
